import Mathlib

/-!
# Verification of the promise-plumbing control-flow combinators

Shallow embedding of `src/index.js` (with `src/lib.js` helpers).  A settled
future outcome is modelled as `Except ε α` (`.error` = rejection, `.ok` =
resolution).  A JS callable may return a plain value, return a future, or
throw synchronously; `CallResult` captures those three cases and `wrap`
embeds the normalizer (src/index.js lines 9-12).

The loop engine `whilst` (src/index.js lines 36-61) is embedded as a fueled
recursion `whilstT`; since the generator drives the test and the operation
strictly sequentially, the loop is a simple recursion on the accumulator.
Callables passed to the loop stand for their already-normalized forms
(`$test = wrap test`, `$operation = wrap operation` in the source), i.e. they
are functions from the current accumulator to a settled outcome.  Each
callable also carries a ghost event log (`List ev`) so that invocation and
delay traces are observable; the loop only concatenates these logs, mirroring
the order in which the source awaits the corresponding promises.
-/

deriving instance DecidableEq for Except

namespace PromisePlumbing

/-- Result of synchronously applying a JS callable: it may return a plain
value, return a future (whose settled outcome we record), or throw. -/
inductive CallResult (ε α : Type) where
  | ret : α → CallResult ε α
  | fut : Except ε α → CallResult ε α
  | throws : ε → CallResult ε α
deriving DecidableEq, Repr

/-- The normalizer `wrap` (src/index.js lines 9-12):
`R.compose(R.tryCatch(R.__, L.reject), R.converge(R.compose, [R.always(L.resolve), R.identity]))`,
i.e. `wrap f = args => tryCatch(() => Promise.resolve(f(args)), Promise.reject)`.
`Promise.resolve` adopts a returned future and resolves a plain value;
`tryCatch`'s handler turns a synchronous throw into a rejection. -/
def wrap {σ ε α : Type} (f : σ → CallResult ε α) (x : σ) : Except ε α :=
  match f x with
  | CallResult.ret v => Except.ok v
  | CallResult.fut o => o
  | CallResult.throws e => Except.error e

/-- The loop engine `whilst` (src/index.js lines 36-61), as a fueled recursion
over the accumulator `acc` (`result` in the source, starting empty).  Each
iteration awaits `$test(result)`; a rejection rejects the whole loop, a falsy
value resolves the loop with the current accumulator, and a truthy value runs
`$operation(result)` whose resolved value is appended (`result = [...result, v]`).
JS truthiness is modelled as `Bool` (every test in the repository is
boolean-valued).  `none` models running out of fuel (a diverging loop). -/
def whilstT {ev ε α : Type} (test : List α → List ev × Except ε Bool)
    (op : List α → List ev × Except ε α) :
    Nat → List α → Option (List ev × Except ε (List α))
  | 0, _ => none
  | fuel + 1, acc =>
    match test acc with
    | (tev, Except.error e) => some (tev, Except.error e)
    | (tev, Except.ok b) =>
      if b then
        match op acc with
        | (oev, Except.error e) => some (tev ++ oev, Except.error e)
        | (oev, Except.ok v) =>
          match whilstT test op fuel (acc ++ [v]) with
          | none => none
          | some (rev, res) => some (tev ++ (oev ++ rev), res)
      else some (tev, Except.ok acc)

/-- `whilst` starts the loop with the empty accumulator (`let result = []`). -/
def whilst {ev ε α : Type} (test : List α → List ev × Except ε Bool)
    (op : List α → List ev × Except ε α) (fuel : Nat) :
    Option (List ev × Except ε (List α)) :=
  whilstT test op fuel []

/-- `doWhilst` (src/index.js lines 71-74):
`whilst(results => R.isEmpty(results) || test(results), operation)`.
The short-circuiting `||` never consults `test` on an empty accumulator. -/
def doWhilst {ev ε α : Type} (operation : List α → List ev × Except ε α)
    (test : List α → List ev × Except ε Bool) (fuel : Nat) :
    Option (List ev × Except ε (List α)) :=
  whilst (fun results => if results.isEmpty then ([], Except.ok true) else test results)
    operation fuel

/-- Observable events of one `retry` run: a task invocation (carrying the
0-based attempt index, i.e. the accumulator length at call time) or an await
of the timer primitive `delay` with the requested duration. -/
inductive REv where
  | taskCall : Nat → REv
  | delayEv : Nat → REv
deriving DecidableEq, Repr

/-- Events of the attempt with 0-based index `n` (src/index.js lines 107-114):
with no `interval`, `delayTask = wrap(task)` — the task is simply invoked;
with an `interval`, `R.ifElse(R.equals(0))(R.always(R.tap))(R.pipe(interval, delay))`
invokes the task immediately on index 0 and awaits `delay(interval(n))`
before the task for every nonzero index. -/
def attemptEvs (interval : Option (Nat → Nat)) (n : Nat) : List REv :=
  match interval with
  | none => [REv.taskCall n]
  | some f => if n = 0 then [REv.taskCall n] else [REv.delayEv (f n), REv.taskCall n]

/-- The operation `retry` feeds to `doWhilst` (src/index.js line 117):
`R.pipe(delayTask, $then(Either.Right), $catch(Either.Left))`.  The task is a
no-argument stateful closure; we model its behaviour on its `n`-th invocation
as `task n`, and the loop always calls it with `n = acc.length` (each attempt
appends exactly one element).  Tagging with `Either.Right`/`Either.Left`
turns the task's outcome into plain data (the accumulator element, of type
`Except ε α`), so the operation itself never rejects. -/
def retryOp {ε α : Type} (interval : Option (Nat → Nat)) (task : Nat → CallResult ε α)
    (acc : List (Except ε α)) : List REv × Except ε (Except ε α) :=
  (attemptEvs interval acc.length, Except.ok (wrap task acc.length))

/-- `_isLastFailure = R.pipe(R.last, Either.isLeft)` (src/index.js line 98);
`Either.isLeft` of `undefined` (empty list) is `false`. -/
def isLastFailure {ε α : Type} (acc : List (Except ε α)) : Bool :=
  match acc.getLast? with
  | some (Except.error _) => true
  | _ => false

/-- The continuation predicate `retry` feeds to `doWhilst` (src/index.js line 118):
`R.allPass([_isLastFailure, _isLengthLessThan(times)])`.  It emits no events. -/
def retryTest {ε α : Type} (times : Int) (acc : List (Except ε α)) :
    List REv × Except ε Bool :=
  ([], Except.ok (isLastFailure acc && decide ((acc.length : Int) < times)))

/-- `retry` (src/index.js lines 104-121).  `times` must be a number (modelled
as `Int`); the final `.then(R.pipe(R.last, Either.either(L.reject, L.resolve)))`
rejects with the last attempt's reason when the last tagged outcome is a
`Left` and resolves with its value otherwise.  The empty-accumulator case is
unreachable (`doWhilst` always performs at least one operation; the source
would raise a `TypeError` there), modelled as `none`. -/
def retry {ε α : Type} (times : Int) (interval : Option (Nat → Nat))
    (task : Nat → CallResult ε α) (fuel : Nat) : Option (List REv × Except ε α) :=
  match doWhilst (retryOp interval task) (retryTest times) fuel with
  | none => none
  | some (evs, Except.error e) => some (evs, Except.error e)
  | some (evs, Except.ok acc) =>
    match acc.getLast? with
    | some (Except.error e) => some (evs, Except.error e)
    | some (Except.ok v) => some (evs, Except.ok v)
    | none => none

/-- Number of task invocations recorded in an event trace. -/
def numTaskCalls (evs : List REv) : Nat :=
  (evs.filter fun e => match e with | REv.taskCall _ => true | REv.delayEv _ => false).length

/-- The sequence of timer awaits recorded in an event trace, in order. -/
def delaysOf (evs : List REv) : List Nat :=
  evs.filterMap fun e => match e with | REv.delayEv d => some d | REv.taskCall _ => none

/-- Accumulator contents after `j` completed retry attempts: the tagged
outcome of each attempt in order. -/
def taggedAcc {ε α : Type} (task : Nat → CallResult ε α) (j : Nat) : List (Except ε α) :=
  (List.range j).map (wrap task)

/-- Ghost events for observing the loop engine: an invocation of the
(normalized) test or operation with the accumulator it received. -/
inductive WEv (α : Type) where
  | testCall : List α → WEv α
  | opCall : List α → WEv α
deriving DecidableEq, Repr

/-- A normalized test whose ghost log records each invocation. -/
def instrTest {ε α : Type} (testO : List α → Except ε Bool) (acc : List α) :
    List (WEv α) × Except ε Bool :=
  ([WEv.testCall acc], testO acc)

/-- A normalized operation whose ghost log records each invocation. -/
def instrOp {ε α : Type} (opO : List α → Except ε α) (acc : List α) :
    List (WEv α) × Except ε α :=
  ([WEv.opCall acc], opO acc)

/-- Ghost events for observing `pipe`: the first function invoked with the
resolved argument list, or a later step invoked with its input value. -/
inductive PEv (α : Type) where
  | headCall : List α → PEv α
  | stepCall : α → PEv α
deriving DecidableEq, Repr

/-- `Promise.all(R.map(L.resolve, args))` on settled arguments
(src/index.js lines 81-82): rejects with the first rejection in argument
order, otherwise resolves with the list of resolved values in order. -/
def resolveAll {ε α : Type} : List (Except ε α) → Except ε (List α)
  | [] => Except.ok []
  | Except.error e :: _ => Except.error e
  | Except.ok v :: rest => (resolveAll rest).map fun vs => v :: vs

/-- `R.reduce((promise, step) => promise.then(step), first, R.tail(functions))`
(src/index.js lines 83-87): each `.then(step)` skips the step entirely when the
incoming promise is rejected (propagating the reason), and otherwise invokes
the step with the resolved value; `.then` gives the step `wrap` semantics
(plain return resolves, returned future is adopted, a throw rejects). -/
def pipeSteps {ε α : Type} : List (α → CallResult ε α) → Except ε α → List (PEv α) × Except ε α
  | [], cur => ([], cur)
  | _ :: _, Except.error e => ([], Except.error e)
  | g :: gs, Except.ok v =>
    let p := pipeSteps gs (wrap g v)
    (PEv.stepCall v :: p.1, p.2)

/-- `pipe` (src/index.js lines 81-88): resolve all arguments, then run
`wrap(R.head(functions))` on the resolved argument list and thread its result
through the remaining steps. -/
def pipe {ε α : Type} (f1 : List α → CallResult ε α) (rest : List (α → CallResult ε α))
    (args : List (Except ε α)) : List (PEv α) × Except ε α :=
  match resolveAll args with
  | Except.error e => ([], Except.error e)
  | Except.ok vs =>
    let p := pipeSteps rest (wrap f1 vs)
    (PEv.headCall vs :: p.1, p.2)

/-- A task that throws synchronously on every invocation (reason = index). -/
def alwaysThrowTask (n : Nat) : CallResult Nat Nat := CallResult.throws n

/-- A task whose returned future rejects on every invocation (reason = index). -/
def alwaysRejectTask (n : Nat) : CallResult Nat Nat := CallResult.fut (Except.error n)

/-- A task that fails on its first invocation and succeeds on the second. -/
def secondTrySucceeds (n : Nat) : CallResult Nat Nat :=
  if n = 0 then CallResult.throws 0 else CallResult.ret 7

/-- A task that immediately resolves with a null-like value. -/
def immediateNullTask (_ : Nat) : CallResult Nat (Option Bool) := CallResult.ret none

/-- A callable exercising all three `CallResult` shapes. -/
def c2fun (n : Nat) : CallResult Nat Nat :=
  if n = 0 then CallResult.ret 5
  else if n = 1 then CallResult.fut (Except.error 9)
  else CallResult.throws 7

/-- A first pipeline function that throws synchronously. -/
def pipeHead (_ : List Nat) : CallResult Nat Nat := CallResult.throws 5

/-- A pipeline step whose future rejects. -/
def pipeStep (_ : Nat) : CallResult Nat Nat := CallResult.fut (Except.error 7)

/-! ### Generic loop-engine step lemmas -/

lemma whilstT_testErr {ev ε α : Type} {test : List α → List ev × Except ε Bool}
    {op : List α → List ev × Except ε α} {acc : List α} {tev : List ev} {e : ε}
    (ht : test acc = (tev, Except.error e)) (fuel : Nat) :
    whilstT test op (fuel + 1) acc = some (tev, Except.error e) := by
  simp only [whilstT, ht]

lemma whilstT_stop {ev ε α : Type} {test : List α → List ev × Except ε Bool}
    {op : List α → List ev × Except ε α} {acc : List α} {tev : List ev}
    (ht : test acc = (tev, Except.ok false)) (fuel : Nat) :
    whilstT test op (fuel + 1) acc = some (tev, Except.ok acc) := by
  simp only [whilstT, ht]
  rfl

lemma whilstT_opErr {ev ε α : Type} {test : List α → List ev × Except ε Bool}
    {op : List α → List ev × Except ε α} {acc : List α} {tev oev : List ev} {e : ε}
    (ht : test acc = (tev, Except.ok true)) (ho : op acc = (oev, Except.error e))
    (fuel : Nat) :
    whilstT test op (fuel + 1) acc = some (tev ++ oev, Except.error e) := by
  simp only [whilstT, ht, ho]
  rfl

lemma whilstT_step {ev ε α : Type} {test : List α → List ev × Except ε Bool}
    {op : List α → List ev × Except ε α} {acc : List α} {tev oev : List ev} {v : α}
    (ht : test acc = (tev, Except.ok true)) (ho : op acc = (oev, Except.ok v))
    (fuel : Nat) :
    whilstT test op (fuel + 1) acc =
      (whilstT test op fuel (acc ++ [v])).map (fun p => (tev ++ (oev ++ p.1), p.2)) := by
  simp only [whilstT, ht, ho]
  cases whilstT test op fuel (acc ++ [v]) with
  | none => rfl
  | some p => rfl

/-! ### Retry loop facts -/

lemma taggedAcc_length {ε α : Type} (task : Nat → CallResult ε α) (j : Nat) :
    (taggedAcc task j).length = j := by
  simp [taggedAcc]

lemma taggedAcc_succ {ε α : Type} (task : Nat → CallResult ε α) (j : Nat) :
    taggedAcc task (j + 1) = taggedAcc task j ++ [wrap task j] := by
  simp [taggedAcc, List.range_succ]

lemma taggedAcc_getLast {ε α : Type} (task : Nat → CallResult ε α) (m : Nat) :
    (taggedAcc task (m + 1)).getLast? = some (wrap task m) := by
  rw [taggedAcc_succ]
  exact List.getLast?_concat _

lemma taggedAcc_isEmpty {ε α : Type} (task : Nat → CallResult ε α) (m : Nat) :
    (taggedAcc task (m + 1)).isEmpty = false := by
  rw [taggedAcc_succ]
  simp

/-- Driving the retry loop from the state after `j` completed attempts
(`j ≥ 1`): if the continuation predicate holds at every intermediate state
and fails after `j + d` attempts, the loop performs attempts `j .. j+d-1`
(with their backoff events) and resolves with the full tagged accumulator. -/
lemma retryRun {ε α : Type} (task : Nat → CallResult ε α) (interval : Option (Nat → Nat))
    (t : Int) :
    ∀ (d j fuel : Nat), 1 ≤ j → d + 1 ≤ fuel →
    (∀ i : Nat, j ≤ i → i < j + d → (∃ e, wrap task (i - 1) = Except.error e) ∧ (i : Int) < t) →
    ((∃ v, wrap task (j + d - 1) = Except.ok v) ∨ t ≤ ((j + d : Nat) : Int)) →
    whilstT (fun rs => if rs.isEmpty then ([], Except.ok true) else retryTest t rs)
        (retryOp interval task) fuel (taggedAcc task j) =
      some (((List.range' j d).map (attemptEvs interval)).flatten,
            Except.ok (taggedAcc task (j + d))) := by
  intro d
  induction d with
  | zero =>
    intro j fuel hj hfuel _hcont hstop
    obtain ⟨m, rfl⟩ : ∃ m, j = m + 1 := ⟨j - 1, by omega⟩
    obtain ⟨f, rfl⟩ : ∃ f, fuel = f + 1 := ⟨fuel - 1, by omega⟩
    have ht : (fun rs : List (Except ε α) =>
          if rs.isEmpty then (([] : List REv), Except.ok true) else retryTest t rs)
        (taggedAcc task (m + 1)) = ([], Except.ok false) := by
      simp only [taggedAcc_isEmpty, Bool.false_eq_true, if_false, retryTest, isLastFailure,
        taggedAcc_getLast, taggedAcc_length]
      rcases hstop with ⟨v, hv⟩ | hle
      · have hv' : wrap task m = Except.ok v := by
          have hEq : m + 1 + 0 - 1 = m := by omega
          rwa [hEq] at hv
        rw [hv']
        rfl
      · have hle' : ¬ (((m + 1 : Nat) : Int) < t) := by
          have hEq : m + 1 + 0 = m + 1 := by omega
          rw [hEq] at hle
          exact not_lt.mpr hle
        simp only [hle']
        simp
    rw [whilstT_stop ht f]
    simp
  | succ d ih =>
    intro j fuel hj hfuel hcont hstop
    obtain ⟨m, rfl⟩ : ∃ m, j = m + 1 := ⟨j - 1, by omega⟩
    obtain ⟨f, rfl⟩ : ∃ f, fuel = f + 1 := ⟨fuel - 1, by omega⟩
    obtain ⟨⟨e, he⟩, hjt⟩ := hcont (m + 1) (le_refl _) (by omega)
    simp only [Nat.add_sub_cancel] at he
    have ht : (fun rs : List (Except ε α) =>
          if rs.isEmpty then (([] : List REv), Except.ok true) else retryTest t rs)
        (taggedAcc task (m + 1)) = ([], Except.ok true) := by
      simp only [taggedAcc_isEmpty, Bool.false_eq_true, if_false, retryTest, isLastFailure,
        taggedAcc_getLast, taggedAcc_length, he]
      have hjt' : (m : Int) + 1 < t := by exact_mod_cast hjt
      simp [hjt']
    have ho : retryOp interval task (taggedAcc task (m + 1)) =
        (attemptEvs interval (m + 1), Except.ok (wrap task (m + 1))) := by
      simp [retryOp, taggedAcc_length]
    rw [whilstT_step ht ho f, ← taggedAcc_succ]
    have hrec := ih (m + 2) f (by omega) (by omega)
      (fun i h1 h2 => hcont i (by omega) (by omega))
      (by
        have hEq : m + 2 + d = m + 1 + (d + 1) := by omega
        rw [hEq]
        exact hstop)
    rw [hrec]
    have hEq : m + 2 + d = m + 1 + (d + 1) := by omega
    rw [hEq]
    simp [List.range']

/-- The first retry attempt is unconditional: from the empty accumulator the
`doWhilst` test short-circuits to `true`, the attempt runs (emitting this
attempt's events), and the loop continues from the one-attempt accumulator. -/
lemma retryFirstStep {ε α : Type} (task : Nat → CallResult ε α)
    (interval : Option (Nat → Nat)) (t : Int) (f : Nat) :
    whilstT (fun rs => if rs.isEmpty then ([], Except.ok true) else retryTest t rs)
        (retryOp interval task) (f + 1) [] =
      (whilstT (fun rs => if rs.isEmpty then ([], Except.ok true) else retryTest t rs)
          (retryOp interval task) f (taggedAcc task 1)).map
        (fun p => (attemptEvs interval 0 ++ p.1, p.2)) := by
  have ht : (fun rs : List (Except ε α) =>
        if rs.isEmpty then (([] : List REv), Except.ok true) else retryTest t rs) [] =
      ([], Except.ok true) := rfl
  have ho : retryOp interval task ([] : List (Except ε α)) =
      (attemptEvs interval 0, Except.ok (wrap task 0)) := rfl
  rw [whilstT_step ht ho f]
  have hacc : ([] : List (Except ε α)) ++ [wrap task 0] = taggedAcc task 1 := by
    simp [taggedAcc, List.range_succ]
  rw [hacc]
  simp

/-- A run of `retry` in which every permitted attempt fails: with `times = t ≥ 1`
and enough fuel, the loop performs attempts `0 .. t-1` and the controller
rejects with the last attempt's reason. -/
lemma retry_allFail {ε α : Type} (task : Nat → CallResult ε α)
    (interval : Option (Nat → Nat)) (r : Nat → ε) (t fuel : Nat)
    (ht1 : 1 ≤ t) (hfuel : t + 1 ≤ fuel)
    (hfail : ∀ n, n < t → wrap task n = Except.error (r n)) :
    retry (t : Int) interval task fuel =
      some (attemptEvs interval 0 ++ ((List.range' 1 (t - 1)).map (attemptEvs interval)).flatten,
            Except.error (r (t - 1))) := by
  obtain ⟨f, rfl⟩ : ∃ f, fuel = f + 1 := ⟨fuel - 1, by omega⟩
  have hloop : doWhilst (retryOp interval task) (retryTest (t : Int)) (f + 1) =
      some (attemptEvs interval 0 ++
              ((List.range' 1 (t - 1)).map (attemptEvs interval)).flatten,
            Except.ok (taggedAcc task t)) := by
    unfold doWhilst whilst
    rw [retryFirstStep task interval (t : Int) f]
    rw [retryRun task interval (t : Int) (t - 1) 1 f (le_refl 1) (by omega)
      (fun i h1 h2 => ⟨⟨r (i - 1), hfail (i - 1) (by omega)⟩, by
        have : i < t := by omega
        exact_mod_cast this⟩)
      (Or.inr (by omega))]
    have hEq : 1 + (t - 1) = t := by omega
    rw [hEq]
    rfl
  obtain ⟨m, rfl⟩ : ∃ m, t = m + 1 := ⟨t - 1, by omega⟩
  unfold retry
  rw [hloop]
  simp only [taggedAcc_getLast, hfail m (by omega), Nat.add_sub_cancel]

/-- A run of `retry` in which attempts `0 .. k-1` fail and attempt `k`
succeeds with value `v` (with `k` within the permitted bound): the loop stops
right after attempt `k` and the controller resolves with `v`. -/
lemma retry_firstSuccess {ε α : Type} (task : Nat → CallResult ε α)
    (interval : Option (Nat → Nat)) (t : Int) (k fuel : Nat) (v : α)
    (hk : (k : Int) < t) (hfuel : k + 2 ≤ fuel)
    (hfail : ∀ n, n < k → ∃ e, wrap task n = Except.error e)
    (hsucc : wrap task k = Except.ok v) :
    retry t interval task fuel =
      some (attemptEvs interval 0 ++ ((List.range' 1 k).map (attemptEvs interval)).flatten,
            Except.ok v) := by
  obtain ⟨f, rfl⟩ : ∃ f, fuel = f + 1 := ⟨fuel - 1, by omega⟩
  have hloop : doWhilst (retryOp interval task) (retryTest t) (f + 1) =
      some (attemptEvs interval 0 ++ ((List.range' 1 k).map (attemptEvs interval)).flatten,
            Except.ok (taggedAcc task (k + 1))) := by
    unfold doWhilst whilst
    rw [retryFirstStep task interval t f]
    rw [retryRun task interval t k 1 f (le_refl 1) (by omega)
      (fun i h1 h2 => ⟨hfail (i - 1) (by omega), by
        have hik : (i : Int) ≤ (k : Int) := by exact_mod_cast (by omega : i ≤ k)
        omega⟩)
      (Or.inl ⟨v, by
        have hEq : 1 + k - 1 = k := by omega
        rw [hEq]
        exact hsucc⟩)]
    have hEq : 1 + k = k + 1 := by omega
    rw [hEq]
    rfl
  unfold retry
  rw [hloop]
  simp only [taggedAcc_getLast, hsucc]

/-! ### Event-trace bookkeeping -/

lemma attemptEvs_zero (interval : Option (Nat → Nat)) :
    attemptEvs interval 0 = [REv.taskCall 0] := by
  cases interval <;> rfl

lemma attemptEvs_some_pos (f : Nat → Nat) (n : Nat) (hn : 1 ≤ n) :
    attemptEvs (some f) n = [REv.delayEv (f n), REv.taskCall n] := by
  simp [attemptEvs, Nat.pos_iff_ne_zero.mp hn]

lemma flatten_singleton_map (g : Nat → REv) (l : List Nat) :
    (l.map fun n => [g n]).flatten = l.map g := by
  induction l with
  | nil => rfl
  | cons x xs ih => simp [ih]

lemma numTaskCalls_map_taskCall (l : List Nat) :
    numTaskCalls (l.map REv.taskCall) = l.length := by
  induction l with
  | nil => rfl
  | cons x xs ih => simp [numTaskCalls, List.filter] at ih ⊢; exact ih

/-- With no interval, the trace of a `t`-attempt run (`t = m + 1`) is exactly
one task call per attempt index `0 .. t-1`. -/
lemma noInterval_trace (m : Nat) :
    attemptEvs none 0 ++ ((List.range' 1 m).map (attemptEvs none)).flatten =
      (List.range (m + 1)).map REv.taskCall := by
  rw [List.range_eq_range']
  have h1 : List.range' 0 (m + 1) = 0 :: List.range' 1 m := by simp [List.range']
  rw [h1]
  have h2 : attemptEvs none = fun n : Nat => [REv.taskCall n] := rfl
  rw [h2, flatten_singleton_map REv.taskCall]
  rfl

lemma interval_trace (f : Nat → Nat) (m : Nat) :
    attemptEvs (some f) 0 ++ ((List.range' 1 m).map (attemptEvs (some f))).flatten =
      REv.taskCall 0 ::
        ((List.range' 1 m).map fun n => [REv.delayEv (f n), REv.taskCall n]).flatten := by
  rw [attemptEvs_zero]
  have hmaps : ∀ (s k : Nat), 1 ≤ s →
      (List.range' s k).map (attemptEvs (some f)) =
        (List.range' s k).map fun n => [REv.delayEv (f n), REv.taskCall n] := by
    intro s k
    induction k generalizing s with
    | zero => intro _; rfl
    | succ k ih =>
      intro hs
      rw [List.range'_succ, List.map_cons, List.map_cons, attemptEvs_some_pos f s hs,
        ih (s + 1) (by omega)]
  rw [hmaps 1 m (le_refl 1)]
  rfl

lemma delaysOf_taskCall_cons (n : Nat) (evs : List REv) :
    delaysOf (REv.taskCall n :: evs) = delaysOf evs := rfl

lemma delaysOf_pairs (f : Nat → Nat) (l : List Nat) :
    delaysOf ((l.map fun n => [REv.delayEv (f n), REv.taskCall n]).flatten) = l.map f := by
  induction l with
  | nil => rfl
  | cons x xs ih => simp [delaysOf, List.filterMap] at ih ⊢; exact ih

/-! ### Whilst rejection traces -/

/-- In an instrumented `whilst` run that rejects, the rejection reason is
exactly the reason of the call recorded last in the trace, and no invocation
is recorded after that call. -/
lemma whilst_err_trace {ε α : Type} (testO : List α → Except ε Bool)
    (opO : List α → Except ε α) :
    ∀ (fuel : Nat) (acc : List α) (evs : List (WEv α)) (e : ε),
    whilstT (instrTest testO) (instrOp opO) fuel acc = some (evs, Except.error e) →
    ∃ pre acc',
      (testO acc' = Except.error e ∧ evs = pre ++ [WEv.testCall acc']) ∨
      (testO acc' = Except.ok true ∧ opO acc' = Except.error e ∧
        evs = pre ++ [WEv.testCall acc', WEv.opCall acc']) := by
  intro fuel
  induction fuel with
  | zero =>
    intro acc evs e h
    simp [whilstT] at h
  | succ f ih =>
    intro acc evs e h
    rcases hT : testO acc with eT | b
    · rw [whilstT_testErr (show instrTest testO acc = ([WEv.testCall acc], Except.error eT) by
        simp [instrTest, hT]) f] at h
      obtain ⟨h1, h2⟩ := by simpa using h
      exact ⟨[], acc, Or.inl ⟨by rw [hT, h2], by simp [h1]⟩⟩
    · cases b with
      | false =>
        rw [whilstT_stop (show instrTest testO acc = ([WEv.testCall acc], Except.ok false) by
          simp [instrTest, hT]) f] at h
        simp at h
      | true =>
        have hTt : instrTest testO acc = ([WEv.testCall acc], Except.ok true) := by
          simp [instrTest, hT]
        rcases hO : opO acc with eO | v
        · rw [whilstT_opErr hTt (show instrOp opO acc = ([WEv.opCall acc], Except.error eO) by
            simp [instrOp, hO]) f] at h
          obtain ⟨h1, h2⟩ := by simpa using h
          exact ⟨[], acc, Or.inr ⟨hT, by rw [hO, h2], by simp [h1]⟩⟩
        · rw [whilstT_step hTt (show instrOp opO acc = ([WEv.opCall acc], Except.ok v) by
            simp [instrOp, hO]) f] at h
          obtain ⟨⟨qevs, qres⟩, hq, hfq⟩ := Option.map_eq_some'.mp h
          obtain ⟨hEvs, hRes⟩ : WEv.testCall acc :: (WEv.opCall acc :: qevs) = evs ∧
              qres = Except.error e := by
            simpa using hfq
          subst hRes
          obtain ⟨pre, acc', hcase⟩ := ih (acc ++ [v]) qevs e hq
          refine ⟨WEv.testCall acc :: WEv.opCall acc :: pre, acc', ?_⟩
          rcases hcase with ⟨hc1, hc2⟩ | ⟨hc1, hc2, hc3⟩
          · exact Or.inl ⟨hc1, by rw [← hEvs, hc2]; simp⟩
          · exact Or.inr ⟨hc1, hc2, by rw [← hEvs, hc3]; simp⟩

/-! ### Pipe facts -/

lemma resolveAll_map_ok {ε α : Type} (vs : List α) :
    resolveAll (vs.map Except.ok) = (Except.ok vs : Except ε (List α)) := by
  induction vs with
  | nil => rfl
  | cons v vs ih => simp [resolveAll, ih, Except.map]

lemma resolveAll_firstErr {ε α : Type} (pre : List (Except ε α)) (ws : List α)
    (e : ε) (post : List (Except ε α)) (h : resolveAll pre = Except.ok ws) :
    resolveAll (pre ++ Except.error e :: post) = Except.error e := by
  induction pre generalizing ws with
  | nil => rfl
  | cons x xs ih =>
    cases x with
    | error e2 => simp [resolveAll] at h
    | ok v =>
      rcases hx : resolveAll xs with e2 | ws2
      · rw [resolveAll, hx] at h
        simp [Except.map] at h
      · have h2 := ih ws2 hx
        simp [resolveAll, h2, Except.map]

lemma pipeSteps_err {ε α : Type} (steps : List (α → CallResult ε α)) (e : ε) :
    pipeSteps steps (Except.error e) = ([], Except.error e) := by
  cases steps <;> rfl

/-! ### The first retry attempt is unconditional -/

/-- Any completed run of the retry loop records the 0th task invocation as
its first event. -/
lemma retryLoop_trace_head {ε α : Type} (task : Nat → CallResult ε α)
    (interval : Option (Nat → Nat)) (t : Int) (fuel : Nat)
    (p : List REv × Except ε (List (Except ε α)))
    (h : whilstT (fun rs => if rs.isEmpty then ([], Except.ok true) else retryTest t rs)
        (retryOp interval task) fuel [] = some p) :
    ∃ rest, p.1 = REv.taskCall 0 :: rest := by
  cases fuel with
  | zero => simp [whilstT] at h
  | succ f =>
    rw [retryFirstStep task interval t f] at h
    obtain ⟨q, _hq, hfq⟩ := Option.map_eq_some'.mp h
    refine ⟨q.1, ?_⟩
    rw [← hfq, attemptEvs_zero]
    rfl

/-- A settled `retry` call reports exactly the trace of its underlying loop. -/
lemma retry_eq_some_trace {ε α : Type} (task : Nat → CallResult ε α)
    (interval : Option (Nat → Nat)) (t : Int) (fuel : Nat) (evs : List REv)
    (res : Except ε α) (h : retry t interval task fuel = some (evs, res)) :
    ∃ p, whilstT (fun rs => if rs.isEmpty then ([], Except.ok true) else retryTest t rs)
        (retryOp interval task) fuel [] = some p ∧ evs = p.1 := by
  unfold retry doWhilst whilst at h
  rcases hdw : whilstT (fun rs => if rs.isEmpty then ([], Except.ok true) else retryTest t rs)
      (retryOp interval task) fuel [] with _ | p
  · rw [hdw] at h
    simp at h
  · rw [hdw] at h
    refine ⟨p, rfl, ?_⟩
    obtain ⟨evs0, res0⟩ := p
    cases res0 with
    | error e =>
      simp at h
      exact h.1.symm
    | ok acc =>
      have h' : (match acc.getLast? with
          | some (Except.error e) => some (evs0, Except.error e)
          | some (Except.ok v) => some (evs0, Except.ok v)
          | none => none) = some (evs, res) := h
      rcases hL : acc.getLast? with _ | x
      · rw [hL] at h'
        simp at h'
      · rw [hL] at h'
        cases x with
        | error e =>
          simp at h'
          exact h'.1.symm
        | ok v =>
          simp at h'
          exact h'.1.symm

/-! ## Claim theorems -/

/-- C1: For `retry({times: t}, task)` with `t` a positive number: if every
task invocation fails, the task is invoked exactly `t` times (the task-call
trace is `0 .. t-1`) and the returned future rejects with the last attempt's
failure reason; if some invocation succeeds first at attempt `k`, the task is
invoked exactly `k + 1` times and the future resolves with that success
value; and the continuation predicate is "last recorded outcome is a failure
and accumulator length is less than `t`". -/
theorem retry_times_semantics (ε α : Type) (t : Nat) (ht : 0 < t) :
    (∀ (task : Nat → CallResult ε α) (r : Nat → ε) (fuel : Nat), t + 1 ≤ fuel →
      (∀ n, n < t → wrap task n = Except.error (r n)) →
      retry (t : Int) none task fuel =
        some ((List.range t).map REv.taskCall, Except.error (r (t - 1))) ∧
      numTaskCalls ((List.range t).map REv.taskCall) = t) ∧
    (∀ (task : Nat → CallResult ε α) (k : Nat) (v : α) (fuel : Nat),
      k < t → k + 2 ≤ fuel →
      (∀ n, n < k → ∃ e, wrap task n = Except.error e) →
      wrap task k = Except.ok v →
      retry (t : Int) none task fuel =
        some ((List.range (k + 1)).map REv.taskCall, Except.ok v) ∧
      numTaskCalls ((List.range (k + 1)).map REv.taskCall) = k + 1) ∧
    (∀ acc : List (Except ε α), acc ≠ [] →
      retryTest (t : Int) acc =
        ([], Except.ok (isLastFailure acc && decide ((acc.length : Int) < (t : Int))))) := by
  refine ⟨?_, ?_, fun acc _ => rfl⟩
  · intro task r fuel hfuel hfail
    obtain ⟨m, rfl⟩ : ∃ m, t = m + 1 := ⟨t - 1, by omega⟩
    constructor
    · have h := retry_allFail task none r (m + 1) fuel (by omega) hfuel hfail
      rw [h]
      rw [show m + 1 - 1 = m from rfl, noInterval_trace m]
    · rw [numTaskCalls_map_taskCall]
      simp
  · intro task k v fuel hk hfuel hfail hsucc
    constructor
    · have h := retry_firstSuccess task none ((k + 1 : Nat) + (t - (k + 1)) : Nat) k fuel v
        (by omega  : (k : Int) < (((k + 1 : Nat) + (t - (k + 1)) : Nat) : Int)) hfuel hfail hsucc
      rw [show (((k + 1 : Nat) + (t - (k + 1)) : Nat) : Int) = ((t : Nat) : Int) from by omega] at h
      rw [h, noInterval_trace k]
    · rw [numTaskCalls_map_taskCall]
      simp

/-- C1 witness: `retry({times:5}, alwaysFailingTask)` makes exactly attempts
`0..4` and rejects with the 5th reason; a task that first succeeds on its
second call is invoked exactly twice and resolves with the success value. -/
theorem retry_times_semantics_witness :
    retry (5 : Int) none alwaysThrowTask 6 =
      some ((List.range 5).map REv.taskCall, Except.error 4) ∧
    retry (5 : Int) none secondTrySucceeds 6 =
      some ((List.range 2).map REv.taskCall, Except.ok 7) := by
  constructor
  · exact ((retry_times_semantics Nat Nat 5 (by decide)).1 alwaysThrowTask (fun n => n) 6
      (by omega) (fun n _ => rfl)).1
  · exact ((retry_times_semantics Nat Nat 5 (by decide)).2.1 secondTrySucceeds 1 7 6
      (by omega) (by omega)
      (fun n hn => ⟨0, by
        obtain rfl : n = 0 := by omega
        rfl⟩) rfl).1

/-- C3: With `interval` supplied and an always-failing task, each attempt of
nonzero index `n` is preceded by an await of the timer for `interval(n)`;
the zeroth attempt never waits (the first recorded event is already the 0th
task call), so the backoff schedule is consulted exactly at indices
`1 .. times-1`. -/
theorem retry_backoff_schedule (ε α : Type) (f : Nat → Nat)
    (task : Nat → CallResult ε α) (r : Nat → ε) (t fuel : Nat)
    (ht : 1 ≤ t) (hfuel : t + 1 ≤ fuel)
    (hfail : ∀ n, n < t → wrap task n = Except.error (r n)) :
    retry (t : Int) (some f) task fuel =
      some (REv.taskCall 0 ::
          ((List.range' 1 (t - 1)).map fun n => [REv.delayEv (f n), REv.taskCall n]).flatten,
        Except.error (r (t - 1))) ∧
    delaysOf (REv.taskCall 0 ::
        ((List.range' 1 (t - 1)).map fun n => [REv.delayEv (f n), REv.taskCall n]).flatten) =
      (List.range' 1 (t - 1)).map f ∧
    (REv.taskCall 0 ::
        ((List.range' 1 (t - 1)).map fun n => [REv.delayEv (f n), REv.taskCall n]).flatten).head? =
      some (REv.taskCall 0) := by
  refine ⟨?_, ?_, rfl⟩
  · have h := retry_allFail task (some f) r t fuel ht hfuel hfail
    rw [h, interval_trace f (t - 1)]
  · rw [delaysOf_taskCall_cons, delaysOf_pairs]

/-- C3 witness: `retry({times: 3, interval: n => 10n}, alwaysRejecting)` waits
10 before attempt 1 and 20 before attempt 2 and never waits before attempt 0. -/
theorem retry_backoff_schedule_witness :
    retry (3 : Int) (some fun n => 10 * n) alwaysRejectTask 4 =
      some ([REv.taskCall 0, REv.delayEv 10, REv.taskCall 1, REv.delayEv 20, REv.taskCall 2],
        Except.error 2) ∧
    delaysOf [REv.taskCall 0, REv.delayEv 10, REv.taskCall 1, REv.delayEv 20, REv.taskCall 2] =
      [10, 20] := by
  have h := retry_backoff_schedule Nat Nat (fun n => 10 * n) alwaysRejectTask (fun n => n) 3 4
    (by omega) (by omega) (fun n _ => rfl)
  exact ⟨h.1, h.2.1⟩

/-- C4: In `retry`, a synchronously-throwing task is treated identically to a
task whose future rejects: `retry` depends on the task only through its
normalized outcomes; a synchronous throw is normalized to a failure with the
thrown reason unchanged; and an always-throwing task is retried under the
same predicate and its (arbitrarily-typed) last reason reaches the
controller's rejection unchanged. -/
theorem retry_throw_reject_alike (ε α : Type) :
    (∀ (t : Int) (interval : Option (Nat → Nat)) (task₁ task₂ : Nat → CallResult ε α)
        (fuel : Nat),
      (∀ n, wrap task₁ n = wrap task₂ n) →
      retry t interval task₁ fuel = retry t interval task₂ fuel) ∧
    (∀ (task : Nat → CallResult ε α) (n : Nat) (e : ε),
      task n = CallResult.throws e → wrap task n = Except.error e) ∧
    (∀ (r : Nat → ε) (t fuel : Nat), 1 ≤ t → t + 1 ≤ fuel →
      retry (t : Int) none (fun n => (CallResult.throws (r n) : CallResult ε α)) fuel =
        some ((List.range t).map REv.taskCall, Except.error (r (t - 1)))) := by
  refine ⟨?_, ?_, ?_⟩
  · intro t interval task₁ task₂ fuel h
    have hop : retryOp interval task₁ = retryOp interval task₂ := by
      funext acc
      simp [retryOp, h]
    unfold retry
    rw [hop]
  · intro task n e h
    simp [wrap, h]
  · intro r t fuel ht hfuel
    have h := retry_allFail (fun n => (CallResult.throws (r n) : CallResult ε α)) none r t fuel
      ht hfuel (fun n _ => rfl)
    obtain ⟨m, rfl⟩ : ∃ m, t = m + 1 := ⟨t - 1, by omega⟩
    rw [h]
    rw [show m + 1 - 1 = m from rfl, noInterval_trace m]

/-- C4 witness: an always-throwing task and an always-rejecting task with the
same reasons produce identical `retry` results, and the thrown reason reaches
the rejection unchanged. -/
theorem retry_throw_reject_alike_witness :
    retry (2 : Int) none alwaysThrowTask 3 = retry (2 : Int) none alwaysRejectTask 3 ∧
    wrap alwaysThrowTask 0 = Except.error 0 ∧
    retry (3 : Int) none (fun n => (CallResult.throws n : CallResult Nat Nat)) 4 =
      some ((List.range 3).map REv.taskCall, Except.error 2) := by
  refine ⟨?_, ?_, ?_⟩
  · exact (retry_throw_reject_alike Nat Nat).1 2 none alwaysThrowTask alwaysRejectTask 3
      (fun n => rfl)
  · exact (retry_throw_reject_alike Nat Nat).2.1 alwaysThrowTask 0 0 rfl
  · exact (retry_throw_reject_alike Nat Nat).2.2 (fun n => n) 3 4 (by omega) (by omega)

/-- C5: For every task whose future resolves — with any value of any type —
`retry` treats that attempt as a success: it never retries after it (exactly
`k + 1` invocations when the first success is attempt `k`), resolves with
exactly that value, and the failure tag (`Either.Left`) is structurally
distinct from every success (`Either.Right v`), whatever `v` is. -/
theorem retry_success_any_value (ε α : Type) (t : Int) (task : Nat → CallResult ε α)
    (k : Nat) (v : α) (fuel : Nat) (hk : (k : Int) < t) (hfuel : k + 2 ≤ fuel)
    (hfail : ∀ n, n < k → ∃ e, wrap task n = Except.error e)
    (hsucc : wrap task k = Except.ok v) :
    retry t none task fuel = some ((List.range (k + 1)).map REv.taskCall, Except.ok v) ∧
    numTaskCalls ((List.range (k + 1)).map REv.taskCall) = k + 1 ∧
    ∀ e : ε, (Except.ok v : Except ε α) ≠ Except.error e := by
  refine ⟨?_, ?_, fun e h => Except.noConfusion h⟩
  · have h := retry_firstSuccess task none t k fuel v hk hfuel hfail hsucc
    rw [h, noInterval_trace k]
  · rw [numTaskCalls_map_taskCall]
    simp

/-- C5 witness: a task resolving immediately with the null-like value `none`
is treated as a success on attempt 0 — one invocation, resolves with `none`,
even though 3 attempts were permitted. -/
theorem retry_success_any_value_witness :
    retry (3 : Int) none immediateNullTask 2 =
      some ((List.range 1).map REv.taskCall, Except.ok none) ∧
    numTaskCalls ((List.range 1).map REv.taskCall) = 1 := by
  have h := retry_success_any_value Nat (Option Bool) 3 immediateNullTask 0 none 2
    (by decide) (by omega) (fun n hn => absurd hn (Nat.not_lt_zero n)) rfl
  exact ⟨h.1, h.2.1⟩

/-- C10: For every number `t` — zero and negative values included — and every
task, any settled `retry({times: t}, task)` run invokes the task at least
once, and indeed its very first recorded event is the 0th task invocation:
the do-while form makes the first attempt unconditional. -/
theorem retry_at_least_one_attempt (ε α : Type) (t : Int) (interval : Option (Nat → Nat))
    (task : Nat → CallResult ε α) (fuel : Nat) (evs : List REv) (res : Except ε α)
    (h : retry t interval task fuel = some (evs, res)) :
    1 ≤ numTaskCalls evs ∧ ∃ rest, evs = REv.taskCall 0 :: rest := by
  obtain ⟨p, hw, hevs⟩ := retry_eq_some_trace task interval t fuel evs res h
  obtain ⟨rest, hp⟩ := retryLoop_trace_head task interval t fuel p hw
  rw [hevs, hp]
  constructor
  · simp [numTaskCalls, List.filter]
  · exact ⟨rest, rfl⟩

/-- C10 witness: even with `times = -3` the task runs once (and the loop then
stops, rejecting with that sole failure). -/
theorem retry_at_least_one_attempt_witness :
    retry (-3 : Int) none alwaysThrowTask 2 = some ([REv.taskCall 0], Except.error 0) ∧
    1 ≤ numTaskCalls [REv.taskCall 0] := by
  have hr : retry (-3 : Int) none alwaysThrowTask 2 =
      some ([REv.taskCall 0], Except.error 0) := by decide
  exact ⟨hr, (retry_at_least_one_attempt Nat Nat (-3) none alwaysThrowTask 2
    [REv.taskCall 0] (Except.error 0) hr).1⟩

/-- C2: For every callable `f` and argument (list) `x`, `wrap(f)(x)` is a
settled future and never throws synchronously (in the embedding, `wrap`
totally returns an outcome): if `f x` returns a plain value `v` the future
resolves to `v`; if `f x` returns a future, that future's outcome is adopted
unchanged; if `f x` throws, the future rejects with exactly the thrown value. -/
theorem wrap_normalizer (σ ε α : Type) (f : σ → CallResult ε α) (x : σ) :
    (∀ v, f x = CallResult.ret v → wrap f x = Except.ok v) ∧
    (∀ o, f x = CallResult.fut o → wrap f x = o) ∧
    (∀ e, f x = CallResult.throws e → wrap f x = Except.error e) := by
  refine ⟨?_, ?_, ?_⟩ <;> intro y h <;> simp [wrap, h]

/-- C2 witness: the three normalization cases at concrete inputs. -/
theorem wrap_normalizer_witness :
    wrap c2fun 0 = Except.ok 5 ∧ wrap c2fun 1 = Except.error 9 ∧
    wrap c2fun 2 = Except.error 7 :=
  ⟨(wrap_normalizer Nat Nat Nat c2fun 0).1 5 rfl,
   (wrap_normalizer Nat Nat Nat c2fun 1).2.1 (Except.error 9) rfl,
   (wrap_normalizer Nat Nat Nat c2fun 2).2.2 7 rfl⟩

/-- C6: `whilst(test, op)` starts from the empty accumulator; when the test
resolves falsy the loop resolves with the current accumulator, and when it
resolves truthy the operation runs and its resolved value is appended before
continuing; with test `x => x.length < 5` and op `x => x.length + 1` it
resolves to `[1,2,3,4,5]`. -/
theorem whilst_loop_semantics (ev ε α : Type) :
    (∀ (test : List α → List ev × Except ε Bool) (op : List α → List ev × Except ε α)
        (acc : List α) (tev : List ev) (fuel : Nat),
      test acc = (tev, Except.ok false) →
      whilstT test op (fuel + 1) acc = some (tev, Except.ok acc)) ∧
    (∀ (test : List α → List ev × Except ε Bool) (op : List α → List ev × Except ε α)
        (acc : List α) (tev oev : List ev) (v : α) (fuel : Nat),
      test acc = (tev, Except.ok true) → op acc = (oev, Except.ok v) →
      whilstT test op (fuel + 1) acc =
        (whilstT test op fuel (acc ++ [v])).map fun p => (tev ++ (oev ++ p.1), p.2)) ∧
    (∀ (test : List α → List ev × Except ε Bool) (op : List α → List ev × Except ε α)
        (fuel : Nat),
      whilst test op fuel = whilstT test op fuel ([] : List α)) ∧
    whilst (fun acc : List Nat => (([] : List Unit), Except.ok (decide (acc.length < 5))))
        (fun acc => ([], (Except.ok (acc.length + 1) : Except Unit Nat))) 10 =
      some ([], Except.ok [1, 2, 3, 4, 5]) := by
  refine ⟨fun test op acc tev fuel ht => whilstT_stop ht fuel,
    fun test op acc tev oev v fuel ht ho => whilstT_step ht ho fuel,
    fun test op fuel => rfl, by decide⟩

/-- C6 witness: a test resolving falsy on the empty accumulator resolves the
loop immediately with the empty accumulator. -/
theorem whilst_loop_semantics_witness :
    whilstT (fun _ : List Nat => (([] : List Unit), Except.ok false))
        (fun acc => ([], (Except.ok (acc.length + 1) : Except Unit Nat))) 1 [] =
      some ([], Except.ok []) :=
  (whilst_loop_semantics Unit Unit Nat).1 _ _ [] [] 0 rfl

/-- C7: If during `whilst` the test's or the operation's future rejects, the
combinator's future rejects with exactly that reason (the accumulator built
so far is not part of the payload), and in the instrumented run no test or
operation invocation is recorded after the rejecting call. -/
theorem whilst_rejection_short_circuit (ev ε α : Type) :
    (∀ (test : List α → List ev × Except ε Bool) (op : List α → List ev × Except ε α)
        (acc : List α) (tev : List ev) (e : ε) (fuel : Nat),
      test acc = (tev, Except.error e) →
      whilstT test op (fuel + 1) acc = some (tev, Except.error e)) ∧
    (∀ (test : List α → List ev × Except ε Bool) (op : List α → List ev × Except ε α)
        (acc : List α) (tev oev : List ev) (e : ε) (fuel : Nat),
      test acc = (tev, Except.ok true) → op acc = (oev, Except.error e) →
      whilstT test op (fuel + 1) acc = some (tev ++ oev, Except.error e)) ∧
    (∀ (testO : List α → Except ε Bool) (opO : List α → Except ε α)
        (fuel : Nat) (evs : List (WEv α)) (e : ε),
      whilst (instrTest testO) (instrOp opO) fuel = some (evs, Except.error e) →
      ∃ pre acc',
        (testO acc' = Except.error e ∧ evs = pre ++ [WEv.testCall acc']) ∨
        (testO acc' = Except.ok true ∧ opO acc' = Except.error e ∧
          evs = pre ++ [WEv.testCall acc', WEv.opCall acc'])) :=
  ⟨fun _ _ _ _ _ fuel ht => whilstT_testErr ht fuel,
   fun _ _ _ _ _ _ fuel ht ho => whilstT_opErr ht ho fuel,
   fun testO opO fuel evs e h => whilst_err_trace testO opO fuel [] evs e h⟩

/-- C7 witness: an operation whose future rejects on the first iteration
rejects the loop with exactly that reason and an empty partial accumulator is
discarded. -/
theorem whilst_rejection_short_circuit_witness :
    whilstT (fun _ : List Nat => (([] : List Unit), (Except.ok true : Except Nat Bool)))
        (fun _ => ([], Except.error 3)) 1 [] =
      some ([] ++ [], Except.error 3) :=
  (whilst_rejection_short_circuit Unit Nat Nat).2.1 _ _ [] [] [] 3 0 rfl rfl

/-- C8: `doWhilst(operation, test)` is `whilst` with a test that treats an
empty accumulator as "continue" and otherwise delegates to the supplied
test, so the operation runs at least once; `doWhilst(() => 'a', () => false)`
resolves to `['a']`. -/
theorem doWhilst_post_condition (ev ε α : Type) :
    (∀ (operation : List α → List ev × Except ε α)
        (test : List α → List ev × Except ε Bool) (fuel : Nat),
      doWhilst operation test fuel =
        whilst (fun results => if results.isEmpty then ([], Except.ok true) else test results)
          operation fuel) ∧
    doWhilst (fun _ : List String => (([] : List Unit), (Except.ok "a" : Except Unit String)))
        (fun _ => ([], Except.ok false)) 3 =
      some ([], Except.ok ["a"]) :=
  ⟨fun _ _ _ => rfl, by decide⟩

/-- C8 witness: the delegation equation at a concrete instance. -/
theorem doWhilst_post_condition_witness :
    doWhilst (fun _ : List Nat => (([] : List Unit), (Except.ok 1 : Except Unit Nat)))
        (fun _ => ([], Except.ok false)) 3 =
      whilst (fun results => if results.isEmpty then ([], Except.ok true)
          else ((fun _ => ([], Except.ok false)) results))
        (fun _ : List Nat => (([] : List Unit), (Except.ok 1 : Except Unit Nat))) 3 :=
  (doWhilst_post_condition Unit Unit Nat).1 _ _ 3

/-- C9: `pipe(f1, ..., fn)(...args)` resolves all arguments before invoking
`f1` with the resolved arguments in order; if an argument rejects, the
pipeline rejects with that reason and no step is ever invoked (empty ghost
trace); and if a step rejects, later steps are never invoked and the
pipeline rejects with that step's reason. -/
theorem pipe_short_circuit (ε α : Type) :
    (∀ vs : List α, resolveAll (vs.map Except.ok) = (Except.ok vs : Except ε (List α))) ∧
    (∀ (f1 : List α → CallResult ε α) (rest : List (α → CallResult ε α)) (vs : List α),
      (pipe f1 rest (vs.map Except.ok)).1.head? = some (PEv.headCall vs)) ∧
    (∀ (f1 : List α → CallResult ε α) (rest : List (α → CallResult ε α))
        (pre : List (Except ε α)) (ws : List α) (e : ε) (post : List (Except ε α)),
      resolveAll pre = Except.ok ws →
      pipe f1 rest (pre ++ Except.error e :: post) = ([], Except.error e)) ∧
    (∀ (f1 : List α → CallResult ε α) (rest : List (α → CallResult ε α))
        (vs : List α) (e : ε),
      wrap f1 vs = Except.error e →
      pipe f1 rest (vs.map Except.ok) = ([PEv.headCall vs], Except.error e)) ∧
    (∀ (steps : List (α → CallResult ε α)) (e : ε),
      pipeSteps steps (Except.error e) = ([], Except.error e)) ∧
    (∀ (g : α → CallResult ε α) (steps : List (α → CallResult ε α)) (v : α) (e : ε),
      wrap g v = Except.error e →
      pipeSteps (g :: steps) (Except.ok v) = ([PEv.stepCall v], Except.error e)) := by
  refine ⟨resolveAll_map_ok, ?_, ?_, ?_, pipeSteps_err, ?_⟩
  · intro f1 rest vs
    unfold pipe
    rw [resolveAll_map_ok]
    rfl
  · intro f1 rest pre ws e post h
    unfold pipe
    rw [resolveAll_firstErr pre ws e post h]
  · intro f1 rest vs e h
    unfold pipe
    rw [resolveAll_map_ok]
    simp only [h, pipeSteps_err]
  · intro g steps v e h
    simp only [pipeSteps, h, pipeSteps_err]

/-- C9 witness: an argument rejection skips every step; a rejecting first
function prevents later steps; a rejecting step short-circuits the chain. -/
theorem pipe_short_circuit_witness :
    pipe pipeHead [] ([Except.ok 1] ++ Except.error 9 :: []) = ([], Except.error 9) ∧
    pipe pipeHead [] ([(2 : Nat)].map Except.ok) = ([PEv.headCall [2]], Except.error 5) ∧
    pipeSteps [pipeStep] (Except.ok (3 : Nat)) = ([PEv.stepCall 3], Except.error 7) :=
  ⟨(pipe_short_circuit Nat Nat).2.2.1 pipeHead [] [Except.ok 1] [1] 9 [] rfl,
   (pipe_short_circuit Nat Nat).2.2.2.1 pipeHead [] [2] 5 rfl,
   (pipe_short_circuit Nat Nat).2.2.2.2.2 pipeStep [] 3 7 rfl⟩

end PromisePlumbing
